import Mathlib

/-!
Verification of the AI To-Do app (`src/app.py`) against its specification.

Python strings are modelled as `List Char` (one element per code point, so
Python's `len` is `List.length`).  The network calls made by the app
(OpenAI chat completion, LibreTranslate `/languages` and `/translate`) are
modelled as oracle parameters carrying the outcome of the call; everything
the program itself computes is translated from the source.
-/

set_option maxRecDepth 8000

/-- A Python string: a list of Unicode code points. -/
abbrev PyStr := List Char

/-- Coerce a Lean string literal to the `PyStr` model. -/
def pys (s : String) : PyStr := s.data

/-- CPython's `str.isspace` / whitespace set used by `str.strip()` and
`str.split()` with no argument: 0x09-0x0D, 0x1C-0x1F, 0x20, 0x85, 0xA0,
0x1680, 0x2000-0x200A, 0x2028, 0x2029, 0x202F, 0x205F, 0x3000. -/
def isPySpace (c : Char) : Bool :=
  (9 ≤ c.toNat && c.toNat ≤ 13) || (28 ≤ c.toNat && c.toNat ≤ 31) ||
  c.toNat == 32 || c.toNat == 133 || c.toNat == 160 || c.toNat == 5760 ||
  (8192 ≤ c.toNat && c.toNat ≤ 8202) || c.toNat == 8232 || c.toNat == 8233 ||
  c.toNat == 8239 || c.toNat == 8287 || c.toNat == 12288

/-- The line boundaries recognised by CPython's `str.splitlines`:
\n, \v, \f, \r, 0x1C, 0x1D, 0x1E, 0x85, 0x2028, 0x2029 (\r\n is treated
as a single boundary by `pySplitlinesAux`). -/
def isLineBound (c : Char) : Bool :=
  (10 ≤ c.toNat && c.toNat ≤ 13) || (28 ≤ c.toNat && c.toNat ≤ 30) ||
  c.toNat == 133 || c.toNat == 8232 || c.toNat == 8233

/-- Remove leading and trailing characters satisfying `p` (Python
`str.strip(chars)` with `p` the membership test of the char set). -/
def pyStripWith (p : Char → Bool) (l : PyStr) : PyStr :=
  ((l.dropWhile p).reverse.dropWhile p).reverse

/-- Python `str.strip()` with no argument: strip whitespace from both ends. -/
def pyStrip (l : PyStr) : PyStr := pyStripWith isPySpace l

/-- Python `str.lower()` for the ASCII range (the only case folding any
claim exercises). -/
def pyLowerChar (c : Char) : Char :=
  if 65 ≤ c.toNat && c.toNat ≤ 90 then Char.ofNat (c.toNat + 32) else c

/-- Python `str.lower()`, applied pointwise. -/
def pyLower (l : PyStr) : PyStr := l.map pyLowerChar

/-- Worker for `str.splitlines`.  `acc` is the current line reversed; the
Boolean is true when the previous character was a `\r` whose line has
already been emitted, so that an immediately following `\n` is consumed
silently (the `\r\n` rule). -/
def pySplitlinesAux : List Char → List Char → Bool → List PyStr
  | [], acc, _ => if acc.isEmpty then [] else [acc.reverse]
  | c :: rest, acc, afterCR =>
    if afterCR && c == '\n' then pySplitlinesAux rest acc false
    else if c == '\r' then acc.reverse :: pySplitlinesAux rest [] true
    else if isLineBound c then acc.reverse :: pySplitlinesAux rest [] false
    else pySplitlinesAux rest (c :: acc) false

/-- Python `str.splitlines()`. -/
def pySplitlines (l : PyStr) : List PyStr := pySplitlinesAux l [] false

/-- Python slicing `l[:n]` for an `int` bound `n`: a non-negative bound
keeps the first `n` elements, a negative bound drops the last `-n`. -/
def pySliceTo (l : List α) (n : Int) : List α :=
  if 0 ≤ n then l.take n.toNat else l.take (l.length - (-n).toNat)

/-- Worker for `str.split(sep)` with a non-empty separator; the fuel starts
at `length + 1`, which suffices because every step consumes at least one
character when `sep` is non-empty. -/
def pySplitOnAux (sep : List Char) : Nat → List Char → List Char → List PyStr
  | 0, l, acc => [acc.reverse ++ l]
  | _ + 1, [], acc => [acc.reverse]
  | fuel + 1, c :: rest, acc =>
    if sep.isPrefixOf (c :: rest) then
      acc.reverse :: pySplitOnAux sep fuel ((c :: rest).drop sep.length) []
    else
      pySplitOnAux sep fuel rest (c :: acc)

/-- Python `str.split(sep)` for a non-empty separator string. -/
def pySplitOn (l : PyStr) (sep : PyStr) : List PyStr :=
  pySplitOnAux sep (l.length + 1) l []

/-- Python `str.split()` with no argument: split on whitespace runs and
drop empty fields. -/
def pySplitWsAux : List Char → List Char → List PyStr
  | [], acc => if acc.isEmpty then [] else [acc.reverse]
  | c :: rest, acc =>
    if isPySpace c then
      if acc.isEmpty then pySplitWsAux rest [] else acc.reverse :: pySplitWsAux rest []
    else pySplitWsAux rest (c :: acc)

/-- Python `str.split()` with no argument. -/
def pySplitWs (l : PyStr) : List PyStr := pySplitWsAux l []

/-- Python substring containment `sub in l`: some suffix of `l` starts
with `sub`. -/
def pyContains (sub : PyStr) : PyStr → Bool
  | [] => sub.isEmpty
  | c :: rest => sub.isPrefixOf (c :: rest) || pyContains sub rest

/-! ## The fallback subtask decomposer (`generate_subtasks_fallback`, app.py lines 141-178) -/

/-- The separator list of app.py line 156.  The third entry is the literal
three-character string `U+00E2 U+20AC U+201D` that appears in the source
file (the UTF-8 bytes of an em-dash mis-decoded as CP1252); it is *not*
the em-dash U+2014. -/
def fallbackSeps : List PyStr :=
  [[':'], ['-'], ['â', '€', '”'], [';'], [',']]

/-- The generic five-step template of app.py lines 165-171. -/
def genericTemplates : List PyStr :=
  [pys "Research / gather requirements",
   pys "Break down tasks and estimate time",
   pys "Implement main functionality",
   pys "Test and fix bugs",
   pys "Deploy / finalize"]

/-- The comprehension `[p.strip() for p in L if p.strip()]`: strip every
part and keep the non-empty results. -/
def neParts (L : List PyStr) : List PyStr :=
  (L.map pyStrip).filter (fun p => !p.isEmpty)

/-- The separator loop of app.py lines 155-161: for the first separator
contained in the text whose split has more than one non-empty stripped
part, return those parts cut to `max_subtasks`; otherwise return `[]`. -/
def sepLoop (seps : List PyStr) (text : PyStr) (max_subtasks : Int) : List PyStr :=
  match seps with
  | [] => []
  | sep :: more =>
    if pyContains sep text then
      let parts := neParts (pySplitOn text sep)
      if 1 < parts.length then pySliceTo parts max_subtasks
      else sepLoop more text max_subtasks
    else sepLoop more text max_subtasks

/-- The generic-template branch of app.py lines 163-174:
`[first] + templates[:max_subtasks - 1]` where `first` is
`"Start: " + text` for text shorter than 80 characters and `text[:80]`
otherwise. -/
def templateStage (text : PyStr) (max_subtasks : Int) : List PyStr :=
  (if text.length < 80 then pys "Start: " ++ text else pySliceTo text 80)
    :: pySliceTo genericTemplates (max_subtasks - 1)

/-- The candidate list `out` of `generate_subtasks_fallback` just before
the final sanitising line 177: newline split if the stripped text contains
`\n` and the split is non-empty, else the separator loop, else the
template. -/
def fallbackCandidates (text : PyStr) (max_subtasks : Int) : List PyStr :=
  let t := pyStrip text
  let out1 := if '\n' ∈ t then pySliceTo (neParts (pySplitlines t)) max_subtasks else []
  let out2 := if out1.isEmpty then sepLoop fallbackSeps t max_subtasks else out1
  if out2.isEmpty then templateStage t max_subtasks else out2

/-- The final sanitising step of app.py line 177:
`[o for o in out if o and len(o) < 300][:max_subtasks]`. -/
def sanitizeOut (out : List PyStr) (max_subtasks : Int) : List PyStr :=
  pySliceTo (out.filter (fun o => !o.isEmpty && o.length < 300)) max_subtasks

/-- The function `generate_subtasks_fallback` (app.py lines 141-178). -/
def generate_subtasks_fallback (text : PyStr) (max_subtasks : Int) : List PyStr :=
  sanitizeOut (fallbackCandidates text max_subtasks) max_subtasks

/-- The separator stage onward of `generate_subtasks_fallback`: what the
function computes once the newline rule has contributed nothing (its `out`
still empty after line 152).  `t` is the already-stripped text. -/
def fallbackPostNewline (t : PyStr) (max_subtasks : Int) : List PyStr :=
  let out2 := sepLoop fallbackSeps t max_subtasks
  sanitizeOut (if out2.isEmpty then templateStage t max_subtasks else out2) max_subtasks

/-! ## The primary subtask path (`generate_subtasks_via_openai`, app.py lines 86-138)

The network call itself is an external effect; what the program computes is
the handling of the assistant text (lines 124-138), which is embedded below.
The outcome of `json.loads(assistant_text)` is an oracle parameter. -/

/-- A value decoded by `json.loads` inside the returned JSON list.  Nested
containers and floats are not modelled; no claim exercises them. -/
inductive JVal
  | jnull
  | jbool (b : Bool)
  | jint (n : Int)
  | jstr (s : PyStr)
  deriving DecidableEq

/-- Python `str(x)` for a decoded JSON scalar. -/
def pyStrOfJVal : JVal → PyStr
  | .jnull => pys "None"
  | .jbool true => pys "True"
  | .jbool false => pys "False"
  | .jint n => pys (toString n)
  | .jstr s => s

/-- The outcome of `json.loads(assistant_text)` at app.py line 128. -/
inductive JParse
  | raised
  | notList
  | list (xs : List JVal)
  deriving DecidableEq

/-- Lines 124-138 of app.py: strip the assistant content, then
`[str(x).strip() for x in arr if str(x).strip()]` when `json.loads`
returned a list; when it raised, the line-based recovery
`[ln.strip("- .\t") for ln in assistant_text.splitlines() if ln.strip()]`
cut to `max_subtasks`; otherwise `raise RuntimeError` (modelled as
`Except.error`). -/
def openai_handle (parsed : JParse) (content : PyStr) (max_subtasks : Int) :
    Except Unit (List PyStr) :=
  let assistant_text := pyStrip content
  match parsed with
  | .list xs =>
    .ok ((xs.map (fun x => pyStrip (pyStrOfJVal x))).filter (fun s => !s.isEmpty))
  | .notList => .error ()
  | .raised =>
    let lines := ((pySplitlines assistant_text).filter
        (fun ln => !(pyStrip ln).isEmpty)).map
      (pyStripWith (fun c => c == '-' || c == ' ' || c == '.' || c == '\t'))
    if !lines.isEmpty then .ok (pySliceTo lines max_subtasks) else .error ()

/-- The branch structure of the `generate_subtasks` route (app.py lines
284-291): the primary path is tried only when an OpenAI key is configured,
and any exception from it falls back to the heuristic. -/
def choose_subtasks (keyPresent : Bool) (primary : Except Unit (List PyStr))
    (source_text : PyStr) (max_n : Int) : List PyStr :=
  if keyPresent then
    match primary with
    | .ok l => l
    | .error _ => generate_subtasks_fallback source_text max_n
  else generate_subtasks_fallback source_text max_n

/-! ## Translation (`translate_text`, app.py lines 181-226)

The two HTTP requests are oracles: `langsFetch = none` models an exception
while fetching `/languages` (which the code absorbs into an empty
catalog), and `postResp = none` models an exception from `/translate`
(absorbed into a `None` return), while `postResp = some d` carries
`data.get("translatedText")`. -/

/-- An entry of the `/languages` catalog.  A key missing from the JSON
object behaves like the empty string in every use the code makes of it
(`item.get("code", "")`, `item.get("name", "")`, and a falsy
`item.get("code")`), so both fields are plain strings. -/
structure LangEntry where
  code : PyStr
  name : PyStr
  deriving DecidableEq

/-- The match test of app.py line 203:
`item.get("code", "").lower() == t or item.get("name", "").lower() == t`. -/
def entryMatches (e : LangEntry) (t : PyStr) : Bool :=
  pyLower e.code == t || pyLower e.name == t

/-- The catalog loop of app.py lines 202-205: the code of the first
matching entry, if any. -/
def findMatchCode : List LangEntry → PyStr → Option PyStr
  | [], _ => none
  | e :: rest, t => if entryMatches e t then some e.code else findMatchCode rest t

/-- Language resolution, app.py lines 199-217: normalise the label, take
the first catalog match with a truthy code, otherwise the 2-or-3-letter
heuristics; `t.split()[0]` on a label with no non-whitespace character
raises `IndexError`, modelled as `Except.error`. -/
def resolve_code (langs : List LangEntry) (target_lang : PyStr) : Except Unit PyStr :=
  let t := pyLower (pyStrip target_lang)
  let code := findMatchCode langs t
  match code with
  | some c =>
    if !c.isEmpty then .ok c else resolveHeuristic t
  | none => resolveHeuristic t
where
  /-- Lines 207-217: `t` itself if its length is 2 or 3, else the first
  whitespace token if that has length 2 or 3, else `t`; crashes when `t`
  has no token. -/
  resolveHeuristic (t : PyStr) : Except Unit PyStr :=
    if t.length == 2 || t.length == 3 then .ok t
    else
      match pySplitWs t with
      | [] => .error ()
      | first :: _ =>
        if first.length == 2 || first.length == 3 then .ok first else .ok t

/-- The function `translate_text` (app.py lines 181-226).  Returns `.error` when the
function raises, `.ok none` when it returns `None`, `.ok (some s)` when it
returns a translation. -/
def translate_text (text : PyStr) (target_lang : PyStr)
    (langsFetch : Option (List LangEntry)) (postResp : Option (Option PyStr)) :
    Except Unit (Option PyStr) :=
  if text.isEmpty then .ok none
  else
    let langs := match langsFetch with
      | some l => l
      | none => []
    match resolve_code langs target_lang with
    | .error e => .error e
    | .ok _code =>
      match postResp with
      | none => .ok none
      | some d => .ok d

/-! ## Data model and routes (app.py lines 44-77 and 229-336)

The persistence store is modelled as in-memory lists with autoincrement
counters; each inbound operation is a state transition.  `get_or_404` on a
missing id aborts the request, leaving the store unchanged. -/

/-- A row of the `todos` table. -/
structure ToDoRec where
  id : Int
  title : PyStr
  description : PyStr
  created_at : Int
  completed : Bool
  translated_text : Option PyStr
  translated_lang : Option PyStr
  deriving DecidableEq

/-- A row of the `subtasks` table. -/
structure SubTaskRec where
  id : Int
  todo_id : Int
  text : PyStr
  done : Bool
  deriving DecidableEq

/-- The persistence store. -/
structure AppState where
  todos : List ToDoRec
  subtasks : List SubTaskRec
  nextTodoId : Int
  nextSubId : Int
  deriving DecidableEq

/-- The empty store created by `db.create_all()`. -/
def initialState : AppState := ⟨[], [], 1, 1⟩

/-- Lookup `ToDo.query.get(todo_id)`: the todo with the given primary key. -/
def findTodo (s : AppState) (todo_id : Int) : Option ToDoRec :=
  s.todos.find? (fun t => t.id == todo_id)

/-- Lookup `SubTask.query.get(subtask_id)`. -/
def findSubTask (s : AppState) (subtask_id : Int) : Option SubTaskRec :=
  s.subtasks.find? (fun st => st.id == subtask_id)

/-- Overwrite the todo row with the given id. -/
def updateTodo (s : AppState) (todo_id : Int) (f : ToDoRec → ToDoRec) : AppState :=
  { s with todos := s.todos.map (fun t => if t.id == todo_id then f t else t) }

/-- The translation step of `create_todo` (app.py lines 251-256): the
fields are written only when the target label is non-empty and
`translate_text` returned a truthy string; an exception or a `None`/empty
result leaves the fresh record as it was. -/
def applyCreateTranslation (todo : ToDoRec) (target_lang : PyStr)
    (tr : Except Unit (Option PyStr)) : ToDoRec :=
  if !target_lang.isEmpty then
    match tr with
    | .ok (some txt) =>
      if !txt.isEmpty then
        { todo with translated_text := some txt, translated_lang := some target_lang }
      else todo
    | _ => todo
  else todo

/-- The route `create_todo` (app.py lines 236-259).  `tr` is the outcome of the
`translate_text` call; `now` is the creation timestamp. -/
def create_todo (s : AppState) (title0 description0 target_lang0 : PyStr)
    (tr : Except Unit (Option PyStr)) (now : Int) : AppState :=
  let title := pyStrip title0
  let description := pyStrip description0
  let target_lang := pyStrip target_lang0
  if title.isEmpty then s
  else
    let todo : ToDoRec :=
      { id := s.nextTodoId, title := title, description := description,
        created_at := now, completed := false,
        translated_text := none, translated_lang := none }
    let todo := applyCreateTranslation todo target_lang tr
    { s with todos := s.todos ++ [todo], nextTodoId := s.nextTodoId + 1 }

/-- Flip the `completed` flag of a todo row (app.py line 271). -/
def toggleTodoRec (t : ToDoRec) : ToDoRec := { t with completed := !t.completed }

/-- The route `toggle_complete` (app.py lines 268-273). -/
def toggle_complete (s : AppState) (todo_id : Int) : AppState :=
  match findTodo s todo_id with
  | none => s
  | some _ => updateTodo s todo_id toggleTodoRec

/-- The route `generate_subtasks` (app.py lines 276-299): build the source text,
choose a subtask list via the primary path or the fallback, then insert a
`SubTask` row per entry. -/
def generate_subtasks (s : AppState) (todo_id : Int) (max_n : Int)
    (keyPresent : Bool) (primary : Except Unit (List PyStr)) : AppState :=
  match findTodo s todo_id with
  | none => s
  | some todo =>
    let source_text := todo.title ++ pys ". " ++ todo.description
    let subtasks := choose_subtasks keyPresent primary source_text max_n
    let newRows := subtasks.enum.map
      (fun p => SubTaskRec.mk (s.nextSubId + p.1) todo.id p.2 false)
    { s with subtasks := s.subtasks ++ newRows,
             nextSubId := s.nextSubId + subtasks.length }

/-- Flip the `done` flag of a subtask row (app.py line 305). -/
def toggleSubRec (st : SubTaskRec) : SubTaskRec := { st with done := !st.done }

/-- The route `toggle_subtask` (app.py lines 302-307). -/
def toggle_subtask (s : AppState) (subtask_id : Int) : AppState :=
  match findSubTask s subtask_id with
  | none => s
  | some _ =>
    { s with subtasks :=
        s.subtasks.map (fun st => if st.id == subtask_id then toggleSubRec st else st) }

/-- The route `delete_todo` (app.py lines 310-316) with the
`cascade="all, delete-orphan"` relationship of app.py line 54: deleting a
todo deletes its subtask rows. -/
def delete_todo (s : AppState) (todo_id : Int) : AppState :=
  match findTodo s todo_id with
  | none => s
  | some _ =>
    { s with todos := s.todos.filter (fun t => !(t.id == todo_id)),
             subtasks := s.subtasks.filter (fun st => !(st.todo_id == todo_id)) }

/-- The route `api_translate` (app.py lines 319-336): 404 on a missing todo, 400 on
an empty target, 500 (state unchanged) when `translate_text` raised or
returned a falsy value, otherwise write both translated fields. -/
def api_translate (s : AppState) (todo_id : Int) (target0 : PyStr)
    (tr : Except Unit (Option PyStr)) : AppState :=
  match findTodo s todo_id with
  | none => s
  | some _ =>
    let target := pyStrip target0
    if target.isEmpty then s
    else
      match tr with
      | .ok (some txt) =>
        if !txt.isEmpty then
          updateTodo s todo_id
            (fun t => { t with translated_text := some txt, translated_lang := some target })
        else s
      | _ => s

/-- An inbound operation, carrying the outcomes of any outbound network
calls the handler makes. -/
inductive Op
  | createTodo (title description target_lang : PyStr)
      (tr : Except Unit (Option PyStr)) (now : Int)
  | toggleComplete (todo_id : Int)
  | generateSubtasks (todo_id : Int) (max_n : Int) (keyPresent : Bool)
      (primary : Except Unit (List PyStr))
  | toggleSubtask (subtask_id : Int)
  | deleteTodo (todo_id : Int)
  | apiTranslate (todo_id : Int) (target : PyStr) (tr : Except Unit (Option PyStr))

/-- One request/response cycle. -/
def step (s : AppState) : Op → AppState
  | .createTodo title description target_lang tr now =>
      create_todo s title description target_lang tr now
  | .toggleComplete todo_id => toggle_complete s todo_id
  | .generateSubtasks todo_id max_n keyPresent primary =>
      generate_subtasks s todo_id max_n keyPresent primary
  | .toggleSubtask subtask_id => toggle_subtask s subtask_id
  | .deleteTodo todo_id => delete_todo s todo_id
  | .apiTranslate todo_id target tr => api_translate s todo_id target tr

/-- Run a sequence of inbound operations from the empty store. -/
def runOps (ops : List Op) : AppState := ops.foldl step initialState

/-- Referential integrity: every subtask's `todo_id` resolves to an
existing todo row. -/
def SubtaskIntegrity (s : AppState) : Prop :=
  ∀ st ∈ s.subtasks, ∃ t ∈ s.todos, t.id = st.todo_id

deriving instance DecidableEq for Except

/-! ## General lemmas about the Python string model -/

theorem pySliceTo_length_le (l : List α) (n : Int) (h : 0 ≤ n) :
    (pySliceTo l n).length ≤ n.toNat := by
  simp only [pySliceTo, if_pos h, List.length_take]
  omega

theorem pySliceTo_subset (l : List α) (n : Int) : pySliceTo l n ⊆ l := by
  unfold pySliceTo
  split <;> exact List.take_subset _ _

theorem pySliceTo_of_length_le (l : List α) (n : Int) (h : 0 ≤ n)
    (hl : l.length ≤ n.toNat) : pySliceTo l n = l := by
  simp only [pySliceTo, if_pos h]
  exact List.take_of_length_le hl

theorem pySliceTo_ne_nil (l : List α) (n : Int) (h : 1 ≤ n) (hl : l ≠ []) :
    pySliceTo l n ≠ [] := by
  have h0 : (0 : Int) ≤ n := by omega
  simp only [pySliceTo, if_pos h0]
  cases l with
  | nil => exact absurd rfl hl
  | cons a t =>
    have : 1 ≤ n.toNat := by omega
    cases hn : n.toNat with
    | zero => omega
    | succ m => simp [List.take]

theorem lineBound_isSpace {c : Char} (h : isLineBound c = true) : isPySpace c = true := by
  simp only [isLineBound, Bool.or_eq_true, Bool.and_eq_true, decide_eq_true_eq,
    beq_iff_eq] at h
  simp only [isPySpace, Bool.or_eq_true, Bool.and_eq_true, decide_eq_true_eq, beq_iff_eq]
  omega

theorem newline_not_lineBound_false : isLineBound '\n' = true := by decide

theorem dropWhile_head?_not {p : α → Bool} {l : List α} {c : α}
    (h : (l.dropWhile p).head? = some c) : p c = false := by
  induction l with
  | nil => simp [List.dropWhile] at h
  | cons a t ih =>
    by_cases hp : p a
    · rw [List.dropWhile_cons_of_pos hp] at h
      exact ih h
    · rw [List.dropWhile_cons_of_neg hp] at h
      simp at h
      subst h
      simpa using hp

theorem dropWhile_getLast?_of_ne_nil {p : α → Bool} {l : List α}
    (h : l.dropWhile p ≠ []) : (l.dropWhile p).getLast? = l.getLast? := by
  induction l with
  | nil => simp [List.dropWhile] at h
  | cons a t ih =>
    by_cases hp : p a
    · rw [List.dropWhile_cons_of_pos hp] at h ⊢
      have ht : t ≠ [] := by
        intro he
        subst he
        simp [List.dropWhile] at h
      rw [ih h]
      cases t with
      | nil => exact absurd rfl ht
      | cons b u => exact (List.getLast?_cons_cons).symm
    · rw [List.dropWhile_cons_of_neg hp]

theorem pyStrip_eq_nil_iff {l : PyStr} :
    pyStrip l = [] ↔ ∀ c ∈ l, isPySpace c = true := by
  constructor
  · intro h c hc
    simp only [pyStrip, pyStripWith] at h
    have hB : (l.dropWhile isPySpace).reverse.dropWhile isPySpace = [] := by
      simpa using congrArg List.reverse h
    have hA : ∀ x ∈ (l.dropWhile isPySpace).reverse, isPySpace x = true :=
      List.dropWhile_eq_nil_iff.mp hB
    have hA' : ∀ x ∈ l.dropWhile isPySpace, isPySpace x = true := by
      intro x hx
      exact hA x (by simpa using hx)
    have hsplit := List.takeWhile_append_dropWhile isPySpace l
    rcases (by rw [← hsplit] at hc; exact List.mem_append.mp hc) with h1 | h2
    · exact List.mem_takeWhile_imp h1
    · exact hA' c h2
  · intro h
    have hA : l.dropWhile isPySpace = [] := List.dropWhile_eq_nil_iff.mpr h
    simp [pyStrip, pyStripWith, hA, List.dropWhile]

theorem pyStrip_ne_nil_iff {l : PyStr} :
    (!(pyStrip l).isEmpty) = l.any (fun c => !isPySpace c) := by
  by_cases h : pyStrip l = []
  · have := pyStrip_eq_nil_iff.mp h
    simp only [h, List.isEmpty_nil, Bool.not_true]
    symm
    simp only [List.any_eq_false, Bool.not_eq_true']
    intro c hc
    simp [this c hc]
  · have h2 : ¬ (∀ c ∈ l, isPySpace c = true) := fun hh => h (pyStrip_eq_nil_iff.mpr hh)
    push_neg at h2
    obtain ⟨c, hc, hcs⟩ := h2
    have : l.any (fun c => !isPySpace c) = true := by
      rw [List.any_eq_true]
      exact ⟨c, hc, by simp [hcs]⟩
    rw [this]
    simpa using h

theorem pyStrip_head?_not_space {l : PyStr} {c : Char}
    (h : (pyStrip l).head? = some c) : isPySpace c = false := by
  simp only [pyStrip, pyStripWith] at h
  set A := l.dropWhile isPySpace with hA
  set B := A.reverse.dropWhile isPySpace with hB
  have h1 : B.getLast? = some c := by
    rw [← List.head?_reverse B]
    exact h
  have hBne : B ≠ [] := by
    intro he
    rw [he] at h1
    simp at h1
  have h2 : B.getLast? = A.reverse.getLast? := dropWhile_getLast?_of_ne_nil hBne
  have h3 : A.reverse.getLast? = A.head? := List.getLast?_reverse A
  have h4 : A.head? = some c := by rw [← h3, ← h2, h1]
  exact dropWhile_head?_not h4

theorem pyStrip_getLast?_not_space {l : PyStr} {c : Char}
    (h : (pyStrip l).getLast? = some c) : isPySpace c = false := by
  simp only [pyStrip, pyStripWith] at h
  rw [List.getLast?_reverse] at h
  exact dropWhile_head?_not h

theorem one_le_countP_splitlinesAux (l : List Char) :
    ∀ (acc : List Char) (b : Bool),
      ((∃ x ∈ acc, isPySpace x = false) ∨ (∃ x ∈ l, isPySpace x = false)) →
      1 ≤ (pySplitlinesAux l acc b).countP
        (fun line => line.any (fun c => !isPySpace c)) := by
  induction l with
  | nil =>
    intro acc b h
    rcases h with ⟨x, hx, hxs⟩ | ⟨x, hx, _⟩
    · have hne : acc.isEmpty = false := by
        cases acc with
        | nil => simp at hx
        | cons a t => rfl
      simp only [pySplitlinesAux, hne, Bool.false_eq_true, if_neg, ite_false]
      have : (acc.reverse.any (fun c => !isPySpace c)) = true := by
        rw [List.any_reverse, List.any_eq_true]
        exact ⟨x, hx, by simp [hxs]⟩
      simp [List.countP_cons, this]
    · simp at hx
  | cons c rest ih =>
    intro acc b h
    simp only [pySplitlinesAux]
    by_cases h1 : (b && c == '\n') = true
    · rw [if_pos h1]
      have hc : c = '\n' := by
        rcases Bool.and_eq_true _ _ |>.mp h1 with ⟨_, h2⟩
        exact beq_iff_eq.mp h2
      apply ih
      rcases h with hl | ⟨x, hx, hxs⟩
      · exact Or.inl hl
      · rcases List.mem_cons.mp hx with rfl | hx'
        · rw [hc] at hxs
          simp [isPySpace] at hxs
        · exact Or.inr ⟨x, hx', hxs⟩
    · rw [if_neg h1]
      by_cases h2 : (c == '\r') = true
      · rw [if_pos h2]
        have hc : c = '\r' := beq_iff_eq.mp h2
        rw [List.countP_cons]
        rcases h with ⟨x, hx, hxs⟩ | ⟨x, hx, hxs⟩
        · have : (acc.reverse.any (fun c => !isPySpace c)) = true := by
            rw [List.any_reverse, List.any_eq_true]
            exact ⟨x, hx, by simp [hxs]⟩
          simp [this]
        · rcases List.mem_cons.mp hx with rfl | hx'
          · rw [hc] at hxs
            simp [isPySpace] at hxs
          · have := ih [] true (Or.inr ⟨x, hx', hxs⟩)
            omega
      · rw [if_neg h2]
        by_cases h3 : isLineBound c = true
        · rw [if_pos h3]
          rw [List.countP_cons]
          rcases h with ⟨x, hx, hxs⟩ | ⟨x, hx, hxs⟩
          · have : (acc.reverse.any (fun c => !isPySpace c)) = true := by
              rw [List.any_reverse, List.any_eq_true]
              exact ⟨x, hx, by simp [hxs]⟩
            simp [this]
          · rcases List.mem_cons.mp hx with rfl | hx'
            · rw [lineBound_isSpace h3] at hxs
              simp at hxs
            · have := ih [] false (Or.inr ⟨x, hx', hxs⟩)
              omega
        · rw [if_neg h3]
          apply ih
          rcases h with ⟨x, hx, hxs⟩ | ⟨x, hx, hxs⟩
          · exact Or.inl ⟨x, List.mem_cons_of_mem c hx, hxs⟩
          · rcases List.mem_cons.mp hx with rfl | hx'
            · exact Or.inl ⟨x, List.mem_cons_self x acc, hxs⟩
            · exact Or.inr ⟨x, hx', hxs⟩

theorem two_le_countP_splitlinesAux (l : List Char) :
    ∀ (acc : List Char),
      '\n' ∈ l →
      (∃ d, l.getLast? = some d ∧ isPySpace d = false) →
      ((∃ x ∈ acc, isPySpace x = false) ∨
        (∃ x ∈ l.takeWhile (fun c => !isLineBound c), isPySpace x = false)) →
      2 ≤ (pySplitlinesAux l acc false).countP
        (fun line => line.any (fun c => !isPySpace c)) := by
  induction l with
  | nil =>
    intro acc hnl _ _
    simp at hnl
  | cons c rest ih =>
    intro acc hnl hlast hfirst
    simp only [pySplitlinesAux, Bool.false_and, Bool.false_eq_true, if_neg, ite_false]
    by_cases h2 : (c == '\r') = true
    · have hc : c = '\r' := beq_iff_eq.mp h2
      rw [if_pos h2, List.countP_cons]
      have hcb : isLineBound c = true := by rw [hc]; decide
      have hnr : '\n' ∈ rest := by
        rcases List.mem_cons.mp hnl with h | h
        · rw [hc] at h; exact absurd h.symm (by decide)
        · exact h
      have hrne : rest ≠ [] := List.ne_nil_of_mem hnr
      have hfirst' : ∃ x ∈ acc, isPySpace x = false := by
        rcases hfirst with h | ⟨x, hx, _⟩
        · exact h
        · rw [List.takeWhile_cons_of_neg (by simp [hcb])] at hx
          simp at hx
      have hq : (acc.reverse.any (fun c => !isPySpace c)) = true := by
        obtain ⟨x, hx, hxs⟩ := hfirst'
        rw [List.any_reverse, List.any_eq_true]
        exact ⟨x, hx, by simp [hxs]⟩
      obtain ⟨d, hd, hds⟩ := hlast
      have hd' : rest.getLast? = some d := by
        cases rest with
        | nil => exact absurd rfl hrne
        | cons b u => rw [← List.getLast?_cons_cons]; exact hd
      have htail := one_le_countP_splitlinesAux rest [] true
        (Or.inr ⟨d, List.mem_of_mem_getLast? hd', hds⟩)
      simp only [hq, if_pos]
      omega
    · rw [if_neg h2]
      by_cases h3 : isLineBound c = true
      · rw [if_pos h3, List.countP_cons]
        have hrne : rest ≠ [] := by
          intro he
          subst he
          rcases hlast with ⟨d, hd, hds⟩
          rw [List.getLast?_singleton] at hd
          have hdc : d = c := by injection hd with h; exact h.symm
          subst hdc
          rw [lineBound_isSpace h3] at hds
          exact absurd hds (by simp)
        have hfirst' : ∃ x ∈ acc, isPySpace x = false := by
          rcases hfirst with h | ⟨x, hx, _⟩
          · exact h
          · rw [List.takeWhile_cons_of_neg (by simp [h3])] at hx
            simp at hx
        have hq : (acc.reverse.any (fun c => !isPySpace c)) = true := by
          obtain ⟨x, hx, hxs⟩ := hfirst'
          rw [List.any_reverse, List.any_eq_true]
          exact ⟨x, hx, by simp [hxs]⟩
        obtain ⟨d, hd, hds⟩ := hlast
        have hd' : rest.getLast? = some d := by
          cases rest with
          | nil => exact absurd rfl hrne
          | cons b u => rw [← List.getLast?_cons_cons]; exact hd
        have htail := one_le_countP_splitlinesAux rest [] false
          (Or.inr ⟨d, List.mem_of_mem_getLast? hd', hds⟩)
        simp only [hq, if_pos]
        omega
      · rw [if_neg h3]
        have hcn : c ≠ '\n' := by
          intro he
          subst he
          exact h3 (by decide)
        have hnr : '\n' ∈ rest := by
          rcases List.mem_cons.mp hnl with h | h
          · exact absurd h.symm hcn
          · exact h
        have hrne : rest ≠ [] := List.ne_nil_of_mem hnr
        apply ih
        · exact hnr
        · obtain ⟨d, hd, hds⟩ := hlast
          refine ⟨d, ?_, hds⟩
          cases rest with
          | nil => exact absurd rfl hrne
          | cons b u => rw [← List.getLast?_cons_cons]; exact hd
        · rcases hfirst with ⟨x, hx, hxs⟩ | ⟨x, hx, hxs⟩
          · exact Or.inl ⟨x, List.mem_cons_of_mem c hx, hxs⟩
          · rw [List.takeWhile_cons_of_pos (by simp [h3])] at hx
            rcases List.mem_cons.mp hx with rfl | hx'
            · exact Or.inl ⟨x, List.mem_cons_self x acc, hxs⟩
            · exact Or.inr ⟨x, hx', hxs⟩

theorem neParts_length_eq_countP (L : List PyStr) :
    (neParts L).length =
      L.countP (fun line => line.any (fun c => !isPySpace c)) := by
  rw [neParts, ← List.countP_eq_length_filter, List.countP_map]
  exact List.countP_congr (fun line _ => by
    simp only [Function.comp_apply, pyStrip_ne_nil_iff])

theorem two_le_neParts_of_newline {text : PyStr} (h : '\n' ∈ pyStrip text) :
    2 ≤ (neParts (pySplitlines (pyStrip text))).length := by
  set s := pyStrip text with hs
  have hne : s ≠ [] := List.ne_nil_of_mem h
  rw [neParts_length_eq_countP]
  apply two_le_countP_splitlinesAux s [] h
  · cases hgl : s.getLast? with
    | none => exact absurd (List.getLast?_eq_none_iff.mp hgl) hne
    | some d =>
      exact ⟨d, rfl, by rw [hs] at hgl; exact pyStrip_getLast?_not_space hgl⟩
  · right
    cases hcs : s with
    | nil => exact absurd hcs hne
    | cons c t =>
      have hhd : (pyStrip text).head? = some c := by rw [← hs, hcs]; rfl
      have hcsp : isPySpace c = false := pyStrip_head?_not_space hhd
      have hcb : isLineBound c = false := by
        cases hb : isLineBound c with
        | false => rfl
        | true => rw [lineBound_isSpace hb] at hcsp; exact absurd hcsp (by simp)
      refine ⟨c, ?_, hcsp⟩
      rw [List.takeWhile_cons_of_pos (by simp [hcb])]
      exact List.mem_cons_self c _

/-! ## Claim theorems -/

/-- Claim C3: the fallback decomposer applies its rules in order and the
newline rule only ever settles the output when its split yields more than
one non-empty segment: whenever the newline split of the stripped text has
at most one non-empty stripped segment, `generate_subtasks_fallback`
computes exactly the separator-rules-then-template stages (in fact the
code's branch is `"\n" in text`, and `two_le_neParts_of_newline` shows
that whenever that branch fires the split has at least two non-empty
segments, so the two guards agree). -/
theorem fallback_newline_rule_order (text : PyStr) (max_subtasks : Int)
    (h : (neParts (pySplitlines (pyStrip text))).length ≤ 1) :
    generate_subtasks_fallback text max_subtasks =
      fallbackPostNewline (pyStrip text) max_subtasks := by
  by_cases hn : '\n' ∈ pyStrip text
  · have := two_le_neParts_of_newline hn
    omega
  · simp only [generate_subtasks_fallback, fallbackCandidates, fallbackPostNewline,
      if_neg hn, List.isEmpty_nil, if_pos]

/-- Witness for C3 at a concrete input whose newline split has a single
non-empty segment. -/
theorem fallback_newline_rule_order_witness :
    (neParts (pySplitlines (pyStrip (pys "Plan the trip")))).length ≤ 1 ∧
    generate_subtasks_fallback (pys "Plan the trip") 4 =
      fallbackPostNewline (pyStrip (pys "Plan the trip")) 4 :=
  ⟨by decide, fallback_newline_rule_order (pys "Plan the trip") 4 (by decide)⟩

/-- Claim C1 (amended): for `maxCount ≥ 0` the heuristic fallback returns
at most `maxCount` entries, each non-empty and under 300 characters; on
the primary path, the JSON-array branch guarantees non-empty entries (but
no count or length bound) and the line-based recovery guarantees the count
bound (but not non-emptiness or the length bound). -/
theorem decompose_output_bounds (text : PyStr) (max_subtasks : Int)
    (h : 0 ≤ max_subtasks) :
    (((generate_subtasks_fallback text max_subtasks).length : Int) ≤ max_subtasks
      ∧ ∀ s ∈ generate_subtasks_fallback text max_subtasks, s ≠ [] ∧ s.length < 300)
    ∧ (∀ (content : PyStr) (xs : List JVal) (out : List PyStr),
        openai_handle (.list xs) content max_subtasks = .ok out →
        ∀ s ∈ out, s ≠ [])
    ∧ (∀ (content : PyStr) (out : List PyStr),
        openai_handle .raised content max_subtasks = .ok out →
        (out.length : Int) ≤ max_subtasks) := by
  refine ⟨⟨?_, ?_⟩, ?_, ?_⟩
  · have := pySliceTo_length_le
      ((fallbackCandidates text max_subtasks).filter
        (fun o => !o.isEmpty && o.length < 300)) max_subtasks h
    simp only [generate_subtasks_fallback, sanitizeOut]
    omega
  · intro s hs
    have hs' := pySliceTo_subset _ _ hs
    have := (List.mem_filter.mp hs').2
    simp only [Bool.and_eq_true, Bool.not_eq_true', decide_eq_true_eq] at this
    exact ⟨List.isEmpty_eq_false.mp this.1, this.2⟩
  · intro content xs out hout s hsm
    simp only [openai_handle, Except.ok.injEq] at hout
    subst hout
    have := (List.mem_filter.mp hsm).2
    simpa using this
  · intro content out hout
    simp only [openai_handle] at hout
    split at hout
    · have hlen := pySliceTo_length_le
        (((pySplitlines (pyStrip content)).filter
            (fun ln => !(pyStrip ln).isEmpty)).map
          (pyStripWith (fun c => c == '-' || c == ' ' || c == '.' || c == '\t')))
        max_subtasks h
      simp only [Except.ok.injEq] at hout
      subst hout
      omega
    · exact absurd hout (by simp)

/-- Witness for C1's amended theorem. -/
theorem decompose_output_bounds_witness :
    ((generate_subtasks_fallback (pys "Buy milk, eggs, bread") 5).length : Int) ≤ 5 ∧
    ∀ s ∈ generate_subtasks_fallback (pys "Buy milk, eggs, bread") 5,
      s ≠ [] ∧ s.length < 300 :=
  (decompose_output_bounds (pys "Buy milk, eggs, bread") 5 (by decide)).1

/-- Counterexample for C1 as stated: the primary path's line-based
recovery of the unparseable response `"- - -"` returns the single entry
`""`, which is empty; and for a negative `maxCount` the fallback's length
bound also fails. -/
theorem decompose_output_bounds_cex :
    openai_handle .raised (pys "- - -") 5 = .ok [[]] ∧
    ¬ (∀ s ∈ [([] : PyStr)], s ≠ []) ∧
    ¬ (((generate_subtasks_fallback (pys "Plan") (-1)).length : Int) ≤ -1) := by
  refine ⟨by decide, by decide, by decide⟩

theorem ite_isEmpty_template_ne_nil (t : PyStr) (m : Int) (a : List PyStr) :
    (if a.isEmpty = true then templateStage t m else a) ≠ [] := by
  cases ha : a.isEmpty with
  | true => simp only [ha, if_pos]; exact List.cons_ne_nil _ _
  | false =>
    simp only [ha, Bool.false_eq_true, if_neg, ite_false]
    exact List.isEmpty_eq_false.mp ha

/-- Claim C4 (amended): when the primary path raises, the caller runs the
heuristic fallback; the fallback's candidate list (the `out` before the
final sanitising line) is never empty because the template branch is
unconditional, and the final output is non-empty whenever `maxCount ≥ 1`
and at least one candidate is non-empty and under 300 characters — but the
sanitising filter can erase every candidate, so the fallback itself can
return the empty sequence. -/
theorem fallback_after_primary_error (text : PyStr) (max_n : Int) :
    choose_subtasks true (.error ()) text max_n = generate_subtasks_fallback text max_n
    ∧ fallbackCandidates text max_n ≠ []
    ∧ (1 ≤ max_n →
        (∃ s ∈ fallbackCandidates text max_n, s ≠ [] ∧ s.length < 300) →
        generate_subtasks_fallback text max_n ≠ []) := by
  refine ⟨rfl, ?_, ?_⟩
  · simp only [fallbackCandidates]
    exact ite_isEmpty_template_ne_nil _ _ _
  · intro h1 ⟨s, hsm, hs1, hs2⟩
    have hmem : s ∈ (fallbackCandidates text max_n).filter
        (fun o => !o.isEmpty && o.length < 300) := by
      rw [List.mem_filter]
      exact ⟨hsm, by simp [hs1, hs2]⟩
    exact pySliceTo_ne_nil _ _ h1 (List.ne_nil_of_mem hmem)

/-- Witness for C4's amended theorem. -/
theorem fallback_after_primary_error_witness :
    choose_subtasks true (.error ()) (pys "Plan the trip") 3 =
      generate_subtasks_fallback (pys "Plan the trip") 3 ∧
    generate_subtasks_fallback (pys "Plan the trip") 3 ≠ [] :=
  ⟨(fallback_after_primary_error (pys "Plan the trip") 3).1,
   (fallback_after_primary_error (pys "Plan the trip") 3).2.2 (by decide)
     ⟨pys "Start: Plan the trip", by decide⟩⟩

/-- Counterexample for C4 as stated: a text whose comma split yields only
300-character segments makes the fallback return the empty sequence even
for `maxCount = 5`. -/
theorem fallback_can_return_empty :
    generate_subtasks_fallback
        (List.replicate 300 'a' ++ ',' :: List.replicate 300 'b') 5 = [] ∧
    (1 : Int) ≤ 5 :=
  ⟨by decide, by decide⟩

/-- Claim C6: the separator list of the source contains, in place of an
em-dash, the three-character mojibake `"â€”"` (U+00E2 U+20AC U+201D), so a
text whose only separator-like character is a real em-dash (U+2014) is
*not* split on it: it falls through to the generic template.  The comma
example of the claim does hold. -/
theorem emdash_separator_not_split :
    generate_subtasks_fallback (pys "Buy milk, eggs, bread") 5 =
      [pys "Buy milk", pys "eggs", pys "bread"] ∧
    '—' ∈ pys "book flights—reserve hotel" ∧
    fallbackSeps.get? 2 = some ['â', '€', '”'] ∧
    generate_subtasks_fallback (pys "book flights—reserve hotel") 5 =
      [pys "Start: book flights—reserve hotel",
       pys "Research / gather requirements",
       pys "Break down tasks and estimate time",
       pys "Implement main functionality",
       pys "Test and fix bugs"] ∧
    generate_subtasks_fallback (pys "book flights—reserve hotel") 5 ≠
      [pys "book flights", pys "reserve hotel"] := by
  refine ⟨by decide, by decide, by decide, by decide, by decide⟩

/-- Claim C7 (amended): when neither the newline rule nor a separator
applies, the fallback emits `"Start: <text>"` — or the *first 80
characters* of the text when the text is 80 characters or longer —
followed by the five generic steps cut to `maxCount - 1`, and the whole
list (all of whose entries pass the sanitising filter) cut to `maxCount`;
for `maxCount ≥ 1` this is exactly head-then-templates; in particular
`decompose("Plan the trip", 3)` is the claim's three-element list. -/
theorem template_stage_output :
    (∀ (text : PyStr) (max_n : Int), 1 ≤ max_n → ¬ '\n' ∈ pyStrip text →
      sepLoop fallbackSeps (pyStrip text) max_n = [] →
      generate_subtasks_fallback text max_n =
        (if (pyStrip text).length < 80 then pys "Start: " ++ pyStrip text
         else pySliceTo (pyStrip text) 80)
          :: pySliceTo genericTemplates (max_n - 1))
    ∧ generate_subtasks_fallback (pys "Plan the trip") 3 =
        [pys "Start: Plan the trip", pys "Research / gather requirements",
         pys "Break down tasks and estimate time"] := by
  refine ⟨?_, by decide⟩
  intro text max_n h1 h2 h3
  have hcand : fallbackCandidates text max_n = templateStage (pyStrip text) max_n := by
    simp only [fallbackCandidates, if_neg h2, List.isEmpty_nil, if_pos, h3]
  have hfirst : (!(if (pyStrip text).length < 80 then pys "Start: " ++ pyStrip text
      else pySliceTo (pyStrip text) 80).isEmpty
        && (if (pyStrip text).length < 80 then pys "Start: " ++ pyStrip text
      else pySliceTo (pyStrip text) 80).length < 300) = true := by
    split
    · next hlt =>
      have : (pys "Start: " ++ pyStrip text).length = 7 + (pyStrip text).length := by
        simp [pys]
        omega
      simp only [Bool.and_eq_true, Bool.not_eq_true', decide_eq_true_eq, this]
      constructor
      · cases htext : pyStrip text <;> simp [pys, List.isEmpty]
      · omega
    · next hge =>
      push_neg at hge
      have hlen : (pySliceTo (pyStrip text) 80).length = 80 := by
        simp only [pySliceTo, if_pos (by omega : (0:Int) ≤ 80), List.length_take]
        omega
      simp only [Bool.and_eq_true, Bool.not_eq_true', decide_eq_true_eq, hlen]
      refine ⟨?_, by omega⟩
      have : (pySliceTo (pyStrip text) 80) ≠ [] := by
        intro he
        rw [he] at hlen
        simp at hlen
      cases hc : pySliceTo (pyStrip text) 80 with
      | nil => exact absurd hc this
      | cons a t => rfl
  have htempl : ∀ s ∈ pySliceTo genericTemplates (max_n - 1),
      (!s.isEmpty && s.length < 300) = true := by
    intro s hsm
    have hall : ∀ x ∈ genericTemplates, (!x.isEmpty && decide (x.length < 300)) = true := by
      decide
    exact hall s (pySliceTo_subset _ _ hsm)
  have hfilter : (templateStage (pyStrip text) max_n).filter
      (fun o => !o.isEmpty && o.length < 300) = templateStage (pyStrip text) max_n := by
    rw [List.filter_eq_self]
    intro a ha
    rcases List.mem_cons.mp ha with rfl | ha'
    · exact hfirst
    · exact htempl a ha'
  have hlen : (templateStage (pyStrip text) max_n).length ≤ max_n.toNat := by
    simp only [templateStage, List.length_cons]
    have : (pySliceTo genericTemplates (max_n - 1)).length ≤ (max_n - 1).toNat :=
      pySliceTo_length_le _ _ (by omega)
    omega
  simp only [generate_subtasks_fallback, sanitizeOut, hcand, hfilter]
  rw [pySliceTo_of_length_le _ _ (by omega) hlen]
  rfl

/-- Witness for C7's amended theorem. -/
theorem template_stage_output_witness :
    generate_subtasks_fallback (pys "Do the dishes") 3 =
      (if (pyStrip (pys "Do the dishes")).length < 80 then
        pys "Start: " ++ pyStrip (pys "Do the dishes")
       else pySliceTo (pyStrip (pys "Do the dishes")) 80)
        :: pySliceTo genericTemplates 2 :=
  template_stage_output.1 (pys "Do the dishes") 3 (by decide) (by decide) (by decide)

/-- Counterexample for C7 as stated: for an 81-character text the first
template entry is the first 80 characters, not the raw text itself. -/
theorem template_head_truncated :
    generate_subtasks_fallback (List.replicate 81 'a') 3 =
      [List.replicate 80 'a', pys "Research / gather requirements",
       pys "Break down tasks and estimate time"] ∧
    List.replicate 80 'a' ≠ List.replicate 81 'a' := by
  refine ⟨by decide, by decide⟩

/-- Claim C2: evaluating `translate_text` at a blank target label.  With
`text = "hello"` and an empty (or whitespace-only) `target_lang`, no
catalog entry matches the normalised label, its length is not 2 or 3, and
`t.split()[0]` raises `IndexError` — the function does *not* return
`None`, contradicting its own docstring ("Returns translated text or None
on failure").  For a label with a non-whitespace character the
unreachable-service behaviour claimed by the spec does hold. -/
theorem translate_text_blank_label_raises :
    translate_text (pys "hello") [] none none = .error () ∧
    translate_text (pys "hello") (pys "   ")
      (some [⟨pys "en", pys "English"⟩]) none = .error () ∧
    translate_text (pys "hello") (pys "french") none none = .ok none ∧
    translate_text (pys "hello") (pys "fr") none
      (some (some (pys "bonjour"))) = .ok (some (pys "bonjour")) := by
  refine ⟨by decide, by decide, by decide, by decide⟩

theorem findMatchCode_append_match (pre post : List LangEntry) (e : LangEntry)
    (t : PyStr) (hpre : ∀ e' ∈ pre, entryMatches e' t = false)
    (he : entryMatches e t = true) :
    findMatchCode (pre ++ e :: post) t = some e.code := by
  induction pre with
  | nil => simp [findMatchCode, he]
  | cons a l ih =>
    have ha : entryMatches a t = false := hpre a (List.mem_cons_self a l)
    simp only [List.cons_append, findMatchCode, ha, Bool.false_eq_true, if_neg,
      ite_false]
    exact ih (fun e' he' => hpre e' (List.mem_cons_of_mem a he'))

theorem findMatchCode_eq_none (langs : List LangEntry) (t : PyStr)
    (h : ∀ e ∈ langs, entryMatches e t = false) :
    findMatchCode langs t = none := by
  induction langs with
  | nil => rfl
  | cons a l ih =>
    have ha : entryMatches a t = false := h a (List.mem_cons_self a l)
    simp only [findMatchCode, ha, Bool.false_eq_true, if_neg, ite_false]
    exact ih (fun e he => h e (List.mem_cons_of_mem a he))

/-- Claim C8: the resolver maps a label to a code by case-insensitive
exact match of the trimmed lowercased label against catalog codes or
names, first match winning (for a matching entry with a truthy code); and
with no catalog match, the label itself if its length is 2 or 3, else its
first whitespace token if that has length 2 or 3, else the full normalised
label verbatim. -/
theorem resolver_mapping :
    (∀ (pre post : List LangEntry) (e : LangEntry) (label : PyStr),
      (∀ e' ∈ pre, entryMatches e' (pyLower (pyStrip label)) = false) →
      entryMatches e (pyLower (pyStrip label)) = true →
      e.code ≠ [] →
      resolve_code (pre ++ e :: post) label = .ok e.code)
    ∧ resolve_code [⟨pys "fr", pys "French"⟩] (pys "French") = .ok (pys "fr")
    ∧ (∀ (langs : List LangEntry) (label first : PyStr) (restTok : List PyStr),
      (∀ e ∈ langs, entryMatches e (pyLower (pyStrip label)) = false) →
      pySplitWs (pyLower (pyStrip label)) = first :: restTok →
      resolve_code langs label = .ok (
        if (pyLower (pyStrip label)).length = 2 ∨ (pyLower (pyStrip label)).length = 3
        then pyLower (pyStrip label)
        else if first.length = 2 ∨ first.length = 3 then first
        else pyLower (pyStrip label))) := by
  refine ⟨?_, by decide, ?_⟩
  · intro pre post e label hpre he hcode
    have hne : e.code.isEmpty = false := by
      cases hc : e.code with
      | nil => exact absurd hc hcode
      | cons a l => rfl
    simp only [resolve_code, findMatchCode_append_match pre post e _ hpre he, hne,
      Bool.not_false, if_pos]
  · intro langs label first restTok hnomatch hsplit
    simp only [resolve_code, findMatchCode_eq_none langs _ hnomatch,
      resolve_code.resolveHeuristic, hsplit]
    by_cases h23 : (pyLower (pyStrip label)).length = 2
        ∨ (pyLower (pyStrip label)).length = 3
    · have hb : ((pyLower (pyStrip label)).length == 2
          || (pyLower (pyStrip label)).length == 3) = true := by
        rcases h23 with h | h <;> simp [h]
      simp [hb, h23]
    · have hb : ((pyLower (pyStrip label)).length == 2
          || (pyLower (pyStrip label)).length == 3) = false := by
        push_neg at h23
        simp [h23.1, h23.2]
      simp only [hb, Bool.false_eq_true, if_neg, ite_false, if_neg h23]
      by_cases hf : first.length = 2 ∨ first.length = 3
      · have hfb : (first.length == 2 || first.length == 3) = true := by
          rcases hf with h | h <;> simp [h]
        simp [hfb, hf]
      · have hfb : (first.length == 2 || first.length == 3) = false := by
          push_neg at hf
          simp [hf.1, hf.2]
        simp [hfb, hf]

/-- Witness for C8 at the claim's own example and at an unknown label. -/
theorem resolver_mapping_witness :
    resolve_code [⟨pys "fr", pys "French"⟩, ⟨pys "de", pys "German"⟩] (pys "German")
      = .ok (pys "de") ∧
    resolve_code [] (pys "xx-unknown-language") = .ok (pys "xx-unknown-language") := by
  constructor
  · exact resolver_mapping.1 [⟨pys "fr", pys "French"⟩] [] ⟨pys "de", pys "German"⟩
      (pys "German") (by decide) (by decide) (by decide)
  · have h := resolver_mapping.2.2 [] (pys "xx-unknown-language")
      (pys "xx-unknown-language") [] (by decide) (by decide)
    exact h.trans (by decide)

/-- Claim C5: on translation failure (an exception, a `None`, or an empty
translated string) both the create-item flow and the translate API leave
the translated fields untouched; the fields are (re)written exactly when a
non-empty translated string comes back. -/
theorem translation_failure_preserves_fields :
    (∀ (todo : ToDoRec) (target : PyStr),
      applyCreateTranslation todo target (.ok none) = todo
      ∧ applyCreateTranslation todo target (.error ()) = todo
      ∧ applyCreateTranslation todo target (.ok (some [])) = todo)
    ∧ (∀ (s : AppState) (todo_id : Int) (target : PyStr),
      api_translate s todo_id target (.ok none) = s
      ∧ api_translate s todo_id target (.error ()) = s
      ∧ api_translate s todo_id target (.ok (some [])) = s)
    ∧ (∀ (todo : ToDoRec) (target txt : PyStr), target ≠ [] → txt ≠ [] →
      applyCreateTranslation todo target (.ok (some txt)) =
        { todo with translated_text := some txt, translated_lang := some target }) := by
  refine ⟨fun todo target => ⟨?_, ?_, ?_⟩, fun s todo_id target => ⟨?_, ?_, ?_⟩,
    fun todo target txt h1 h2 => ?_⟩
  · unfold applyCreateTranslation
    split <;> rfl
  · unfold applyCreateTranslation
    split <;> rfl
  · unfold applyCreateTranslation
    split <;> rfl
  · unfold api_translate
    cases hf : findTodo s todo_id with
    | none => rfl
    | some t0 =>
      dsimp only
      split <;> rfl
  · unfold api_translate
    cases hf : findTodo s todo_id with
    | none => rfl
    | some t0 =>
      dsimp only
      split <;> rfl
  · unfold api_translate
    cases hf : findTodo s todo_id with
    | none => rfl
    | some t0 =>
      dsimp only
      split <;> rfl
  · have ht : target.isEmpty = false := by
      cases hc : target with
      | nil => exact absurd hc h1
      | cons a l => rfl
    have hx : txt.isEmpty = false := by
      cases hc : txt with
      | nil => exact absurd hc h2
      | cons a l => rfl
    simp [applyCreateTranslation, ht, hx]

/-- Witness for C5 at a concrete record. -/
theorem translation_failure_preserves_fields_witness :
    applyCreateTranslation ⟨1, pys "T", [], 0, false, none, none⟩ (pys "fr")
        (.ok (some (pys "bonjour"))) =
      { (⟨1, pys "T", [], 0, false, none, none⟩ : ToDoRec) with
        translated_text := some (pys "bonjour"),
        translated_lang := some (pys "fr") } :=
  translation_failure_preserves_fields.2.2 ⟨1, pys "T", [], 0, false, none, none⟩
    (pys "fr") (pys "bonjour") (by decide) (by decide)

theorem find?_map_pred_pres {α : Type _} (p : α → Bool) (g : α → α)
    (hg : ∀ t, p (g t) = p t) (l : List α) :
    List.find? p (l.map g) = (List.find? p l).map g := by
  rw [List.find?_map]
  have : p ∘ g = p := funext hg
  rw [this]


theorem map_if_involution {α : Type _} (p : α → Bool) (f : α → α)
    (hpf : ∀ t, p (f t) = p t) (hff : ∀ t, f (f t) = t) (l : List α) :
    ((l.map (fun t => if p t then f t else t)).map
      (fun t => if p t then f t else t)) = l := by
  rw [List.map_map]
  rw [List.map_congr_left (g := id) ?_]
  · exact List.map_id l
  · intro t _
    by_cases h : p t = true
    · simp [Function.comp_apply, h, hpf, hff]
    · simp [Function.comp_apply, h]

/-- Claim C10: flipping `completed` (resp. `done`) twice restores the
record, a single flip changes no other field, and at the route level
toggling the same id twice restores the whole store. -/
theorem toggle_involution :
    (∀ t : ToDoRec, toggleTodoRec (toggleTodoRec t) = t
      ∧ (toggleTodoRec t).id = t.id ∧ (toggleTodoRec t).title = t.title
      ∧ (toggleTodoRec t).description = t.description
      ∧ (toggleTodoRec t).created_at = t.created_at
      ∧ (toggleTodoRec t).translated_text = t.translated_text
      ∧ (toggleTodoRec t).translated_lang = t.translated_lang
      ∧ (toggleTodoRec t).completed = !t.completed)
    ∧ (∀ st : SubTaskRec, toggleSubRec (toggleSubRec st) = st
      ∧ (toggleSubRec st).id = st.id ∧ (toggleSubRec st).todo_id = st.todo_id
      ∧ (toggleSubRec st).text = st.text ∧ (toggleSubRec st).done = !st.done)
    ∧ (∀ (s : AppState) (todo_id : Int),
        toggle_complete (toggle_complete s todo_id) todo_id = s)
    ∧ (∀ (s : AppState) (subtask_id : Int),
        toggle_subtask (toggle_subtask s subtask_id) subtask_id = s) := by
  have htodoid : ∀ (todo_id : Int) (t : ToDoRec),
      ((if t.id == todo_id then toggleTodoRec t else t).id == todo_id) =
        (t.id == todo_id) := by
    intro todo_id t
    by_cases h : t.id = todo_id <;> simp [h, toggleTodoRec]
  have hsubid : ∀ (subtask_id : Int) (st : SubTaskRec),
      ((if st.id == subtask_id then toggleSubRec st else st).id == subtask_id) =
        (st.id == subtask_id) := by
    intro subtask_id st
    by_cases h : st.id = subtask_id <;> simp [h, toggleSubRec]
  have htodoinv : ∀ t : ToDoRec, toggleTodoRec (toggleTodoRec t) = t := by
    intro t
    cases t
    simp [toggleTodoRec, Bool.not_not]
  have hsubinv : ∀ st : SubTaskRec, toggleSubRec (toggleSubRec st) = st := by
    intro st
    cases st
    simp [toggleSubRec, Bool.not_not]
  refine ⟨fun t => ⟨htodoinv t, rfl, rfl, rfl, rfl, rfl, rfl, rfl⟩,
    fun st => ⟨hsubinv st, rfl, rfl, rfl, rfl⟩, fun s todo_id => ?_, fun s subtask_id => ?_⟩
  · cases hf : findTodo s todo_id with
    | none => simp only [toggle_complete, hf]
    | some t0 =>
      have hfind : findTodo (updateTodo s todo_id toggleTodoRec) todo_id =
          some (if t0.id == todo_id then toggleTodoRec t0 else t0) := by
        have hmap : List.find? (fun t : ToDoRec => t.id == todo_id)
            (s.todos.map (fun t => if t.id == todo_id then toggleTodoRec t else t)) =
            (List.find? (fun t : ToDoRec => t.id == todo_id) s.todos).map
              (fun t => if t.id == todo_id then toggleTodoRec t else t) :=
          find?_map_pred_pres _ _ (htodoid todo_id) s.todos
        have hf' : List.find? (fun t : ToDoRec => t.id == todo_id) s.todos = some t0 := hf
        show List.find? (fun t : ToDoRec => t.id == todo_id)
            (s.todos.map (fun t => if t.id == todo_id then toggleTodoRec t else t)) = _
        rw [hmap, hf']
        rfl
      simp only [toggle_complete, hf, hfind]
      cases s with
      | mk todos subtasks nid nsid =>
        simp only [updateTodo, AppState.mk.injEq, and_true, true_and]
        exact map_if_involution (fun t : ToDoRec => t.id == todo_id) toggleTodoRec
          (fun t => by by_cases h : t.id = todo_id <;> simp [h, toggleTodoRec])
          htodoinv todos
  · cases hf : findSubTask s subtask_id with
    | none => simp only [toggle_subtask, hf]
    | some st0 =>
      have hfind : findSubTask
          { s with subtasks :=
              s.subtasks.map (fun st => if st.id == subtask_id then toggleSubRec st else st) }
          subtask_id =
          some (if st0.id == subtask_id then toggleSubRec st0 else st0) := by
        have hmap : List.find? (fun st : SubTaskRec => st.id == subtask_id)
            (s.subtasks.map (fun st => if st.id == subtask_id then toggleSubRec st else st)) =
            (List.find? (fun st : SubTaskRec => st.id == subtask_id) s.subtasks).map
              (fun st => if st.id == subtask_id then toggleSubRec st else st) :=
          find?_map_pred_pres _ _ (hsubid subtask_id) s.subtasks
        have hf' : List.find? (fun st : SubTaskRec => st.id == subtask_id) s.subtasks =
            some st0 := hf
        show List.find? (fun st : SubTaskRec => st.id == subtask_id)
            (s.subtasks.map (fun st => if st.id == subtask_id then toggleSubRec st else st)) = _
        rw [hmap, hf']
        rfl
      simp only [toggle_subtask, hf, hfind]
      cases s with
      | mk todos subtasks nid nsid =>
        simp only [AppState.mk.injEq, and_true, true_and]
        exact map_if_involution (fun st : SubTaskRec => st.id == subtask_id) toggleSubRec
          (fun st => by by_cases h : st.id = subtask_id <;> simp [h, toggleSubRec])
          hsubinv subtasks

theorem updateTodo_preserves_integrity (s : AppState) (todo_id : Int)
    (f : ToDoRec → ToDoRec) (hfid : ∀ t, (f t).id = t.id)
    (h : SubtaskIntegrity s) : SubtaskIntegrity (updateTodo s todo_id f) := by
  intro st hst
  obtain ⟨t, ht, hid⟩ := h st hst
  refine ⟨if t.id == todo_id then f t else t, ?_, ?_⟩
  · exact List.mem_map_of_mem _ ht
  · by_cases hb : (t.id == todo_id) = true
    · rw [if_pos hb, hfid, hid]
    · rw [if_neg hb, hid]

theorem step_preserves_integrity (s : AppState) (op : Op)
    (h : SubtaskIntegrity s) : SubtaskIntegrity (step s op) := by
  cases op with
  | createTodo title description target_lang tr now =>
    simp only [step, create_todo]
    split
    · exact h
    · intro st hst
      obtain ⟨t, ht, hid⟩ := h st hst
      exact ⟨t, List.mem_append_left _ ht, hid⟩
  | toggleComplete todo_id =>
    simp only [step, toggle_complete]
    cases hf : findTodo s todo_id with
    | none => exact h
    | some t0 => exact updateTodo_preserves_integrity s todo_id _ (fun t => rfl) h
  | generateSubtasks todo_id max_n keyPresent primary =>
    simp only [step, generate_subtasks]
    cases hf : findTodo s todo_id with
    | none => exact h
    | some todo =>
      intro st hst
      simp only [List.mem_append] at hst
      rcases hst with hold | hnew
      · obtain ⟨t, ht, hid⟩ := h st hold
        exact ⟨t, ht, hid⟩
      · obtain ⟨p, _, hp⟩ := List.mem_map.mp hnew
        refine ⟨todo, List.mem_of_find?_eq_some hf, ?_⟩
        rw [← hp]
  | toggleSubtask subtask_id =>
    simp only [step, toggle_subtask]
    cases hf : findSubTask s subtask_id with
    | none => exact h
    | some st0 =>
      intro st hst
      obtain ⟨st', hst', hmap⟩ := List.mem_map.mp hst
      obtain ⟨t, ht, hid⟩ := h st' hst'
      refine ⟨t, ht, ?_⟩
      rw [← hmap]
      by_cases hb : (st'.id == subtask_id) = true
      · simp [hb, toggleSubRec, hid]
      · simp [hb, hid]
  | deleteTodo todo_id =>
    simp only [step, delete_todo]
    cases hf : findTodo s todo_id with
    | none => exact h
    | some t0 =>
      intro st hst
      have hm := List.mem_filter.mp hst
      obtain ⟨t, ht, hid⟩ := h st hm.1
      refine ⟨t, ?_, hid⟩
      rw [List.mem_filter]
      refine ⟨ht, ?_⟩
      have hfalse : (st.todo_id == todo_id) = false := by
        cases hb : (st.todo_id == todo_id) with
        | false => rfl
        | true =>
          have h2 := hm.2
          rw [hb] at h2
          simp at h2
      have : (t.id == todo_id) = false := by
        rw [hid]
        exact hfalse
      simp [this]
  | apiTranslate todo_id target tr =>
    simp only [step, api_translate]
    cases hf : findTodo s todo_id with
    | none => exact h
    | some t0 =>
      dsimp only
      split
      · exact h
      · cases tr with
        | error e => exact h
        | ok o =>
          cases o with
          | none => exact h
          | some txt =>
            dsimp only
            split
            · exact updateTodo_preserves_integrity s todo_id _ (fun t => rfl) h
            · exact h

theorem foldl_preserves_integrity (ops : List Op) :
    ∀ s : AppState, SubtaskIntegrity s → SubtaskIntegrity (ops.foldl step s) := by
  induction ops with
  | nil => exact fun s h => h
  | cons op rest ih =>
    intro s h
    exact ih (step s op) (step_preserves_integrity s op h)

/-- Claim C9: in every store reachable by the inbound operations, every
subtask's `todo_id` resolves to an existing todo; and deleting an existing
todo removes every subtask that referenced it. -/
theorem subtask_integrity_invariant :
    (∀ ops : List Op, SubtaskIntegrity (runOps ops))
    ∧ (∀ (s : AppState) (todo_id : Int), (∃ t ∈ s.todos, t.id = todo_id) →
        ∀ st ∈ (delete_todo s todo_id).subtasks, st.todo_id ≠ todo_id) := by
  constructor
  · intro ops
    apply foldl_preserves_integrity
    intro st hst
    simp [initialState] at hst
  · intro s todo_id hex st hst
    obtain ⟨t, ht, hid⟩ := hex
    have hsome : (findTodo s todo_id).isSome = true := by
      rw [findTodo, List.find?_isSome]
      exact ⟨t, ht, by simp [hid]⟩
    cases hval : findTodo s todo_id with
    | none => rw [hval] at hsome; simp at hsome
    | some t0 =>
      unfold delete_todo at hst
      rw [hval] at hst
      simp only at hst
      have := (List.mem_filter.mp hst).2
      intro he
      simp [he] at this

/-- Witness for C9: a creation run from the empty store, and a cascade
delete on a concrete store holding one todo with one subtask. -/
theorem subtask_integrity_invariant_witness :
    SubtaskIntegrity (runOps [Op.createTodo (pys "A") [] [] (.ok none) 0]) ∧
    (∀ st ∈ (delete_todo
        ⟨[⟨1, pys "A", [], 0, false, none, none⟩], [⟨1, 1, pys "x", false⟩], 2, 2⟩
        1).subtasks, st.todo_id ≠ 1) :=
  ⟨subtask_integrity_invariant.1 [Op.createTodo (pys "A") [] [] (.ok none) 0],
   subtask_integrity_invariant.2
     ⟨[⟨1, pys "A", [], 0, false, none, none⟩], [⟨1, 1, pys "x", false⟩], 2, 2⟩ 1
     ⟨⟨1, pys "A", [], 0, false, none, none⟩, by decide, rfl⟩⟩
